import Mathlib

/-!
Verification of the SCINet GeoCDL throughput-benchmark harness.

The repository consists of benchmarking notebooks built on a small helper
module (`DiagnosticTimer`, `DevNullStore`, `total_nthreads`, `total_ncores`,
`total_workers`, `get_chunksize`).  The helper module itself ships outside the
notebook files, so its operations are modelled here from the specification;
the notebook measurement loops (worker lists, the `dask.compute` retry
configuration, the metadata keyword sets, and the throughput column formula)
are embedded directly from the notebook sources.
-/

namespace GeoCDL

/-- A metadata value recorded with a trial: the notebooks pass counts
(naturals), labels (strings), and the timer itself stores a wall-clock
duration (modelled as a rational). -/
inductive Value where
  | nat (n : Nat)
  | str (s : String)
  | rat (q : ℚ)
deriving DecidableEq

/-- The keys of a metadata mapping (a Python dict modelled as an ordered
association list with the dict's insertion order). -/
def keysOf (m : List (String × Value)) : List String :=
  m.map Prod.fst

/-- Dictionary lookup: the value bound to `k`, keyed on the first matching
entry. -/
def lookupVal (k : String) : List (String × Value) → Option Value
  | [] => none
  | p :: m => if p.1 = k then some p.2 else lookupVal k m

/-- Python dict assignment `m[k] = v`: overwrites the value in place when the
key is present, appends the binding otherwise. -/
def setKey (m : List (String × Value)) (k : String) (v : Value) :
    List (String × Value) :=
  if k ∈ keysOf m then m.map (fun p => if p.1 = k then (k, v) else p)
  else m ++ [(k, v)]

/-- Modelled from the spec: the Null Sink (`DevNullStore`, whose source module
is not shipped with the notebooks).  It has no observable state. -/
structure DevNullStore where
deriving DecidableEq

/-- Modelled from the spec: the Null Sink write operation accepts a value of
any type at a position of any type, performs no validation, never fails, and
discards the data.  The `Except` result makes the absence of an error path
explicit. -/
def DevNullStore.setitem {α β : Type _} (s : DevNullStore) (key : α)
    (val : β) : Except String DevNullStore :=
  Except.ok s

/-- Modelled from the spec: a lazy chunked array exposes the shape of one
representative chunk and the element byte width (`data.chunksize` and
`data.dtype.itemsize`). -/
structure DaskArray where
  chunkshape : List Nat
  itemsize : Nat
deriving DecidableEq

/-- The product reduction over a shape tuple (`np.prod`). -/
def npProd (shape : List Nat) : Nat :=
  shape.foldl (fun a b => a * b) 1

/-- Modelled from the spec: `get_chunksize` returns the byte size of one
representative chunk: the product of one chunk's shape dimensions times the
element byte width. -/
def get_chunksize (d : DaskArray) : Nat :=
  npProd d.chunkshape * d.itemsize

/-- A registered worker of the distributed-computing client, with its core
and thread counts. -/
structure WorkerInfo where
  ncores : Nat
  nthreads : Nat
deriving DecidableEq

/-- Modelled from the spec: a cluster-client handle as seen by the
introspection helpers: its registry of currently registered workers. -/
structure Client where
  workers : List WorkerInfo
deriving DecidableEq

/-- Modelled from the spec: the count of currently registered worker
processes. -/
def total_workers (c : Client) : Nat :=
  c.workers.length

/-- Modelled from the spec: the sum of CPU cores across all registered
workers. -/
def total_ncores (c : Client) : Nat :=
  (c.workers.map WorkerInfo.ncores).sum

/-- Modelled from the spec: the sum of execution threads across all
registered workers. -/
def total_nthreads (c : Client) : Nat :=
  (c.workers.map WorkerInfo.nthreads).sum

/-- Modelled from the spec: the Timing Recorder.  Its only state is the
internal Trial Table: the ordered sequence of Timing Records accumulated so
far, each a metadata mapping extended with the measured duration. -/
structure DiagnosticTimer where
  diagnostics : List (List (String × Value))
deriving DecidableEq

/-- A freshly constructed timer (`DiagnosticTimer()`): the Trial Table is
empty. -/
def DiagnosticTimer.empty : DiagnosticTimer :=
  ⟨[]⟩

/-- How the measured block left the timed scope: normally, or by raising an
error. -/
inductive BlockExit where
  | normal
  | raised
deriving DecidableEq

/-- Modelled from the spec: one complete begin/end measurement
(`with diag_timer.time(**kwargs): ...`).  `tic` and `toc` are the wall-clock
readings at scope entry and scope exit; on scope exit — always executed, even
if the measured block raised an error — the supplied metadata extended with
the elapsed duration is appended as one Timing Record to the Trial Table. -/
def DiagnosticTimer.timeScope (dt : DiagnosticTimer)
    (kwargs : List (String × Value)) (tic toc : ℚ) (e : BlockExit) :
    DiagnosticTimer :=
  match e with
  | BlockExit.normal =>
      ⟨dt.diagnostics ++ [setKey kwargs "runtime" (Value.rat (toc - tic))]⟩
  | BlockExit.raised =>
      ⟨dt.diagnostics ++ [setKey kwargs "runtime" (Value.rat (toc - tic))]⟩

/-- Keep the first occurrence of every element, dropping later duplicates:
the column order a table infers from a sequence of mappings. -/
def dedupFirst (l : List String) : List String :=
  l.foldl (fun acc k => if k ∈ acc then acc else acc ++ [k]) []

/-- The keys of every record of the table, concatenated in record order. -/
def flatKeys (rs : List (List (String × Value))) : List String :=
  rs.foldr (fun r acc => keysOf r ++ acc) []

/-- Modelled from the spec: the column list of the exported table: the union
of all metadata keys ever supplied (which includes the appended duration
key), in order of first appearance. -/
def DiagnosticTimer.columns (dt : DiagnosticTimer) : List String :=
  dedupFirst (flatKeys dt.diagnostics)

/-- One exported row: a cell for every column; a key the record lacks
resolves to the missing value `none`. -/
def rowOf (cols : List String) (r : List (String × Value)) :
    List (String × Option Value) :=
  cols.map (fun c => (c, lookupVal c r))

/-- Modelled from the spec: the export operation (`diag_timer.dataframe()`):
one row per recorded trial, with a cell for every column of the table. -/
def DiagnosticTimer.dataframe (dt : DiagnosticTimer) :
    List (List (String × Option Value)) :=
  dt.diagnostics.map (rowOf dt.columns)

/-- Modelled from the spec: the export operation viewed as a state
transition: it returns the table and the (unchanged) timer state, since
export neither modifies nor consumes the accumulated Trial Table. -/
def DiagnosticTimer.dataframeOp (dt : DiagnosticTimer) :
    List (List (String × Option Value)) × DiagnosticTimer :=
  (dt.dataframe, dt)

/-- Look a column up in an exported row.  The outer `Option` is presence of
the cell, the inner one the cell's possibly-missing value. -/
def rowLookup (k : String) : List (String × Option Value) → Option (Option Value)
  | [] => none
  | p :: row => if p.1 = k then some p.2 else rowLookup k row

/-- One begin/end-measurement call: the supplied metadata mapping, the two
clock readings, and the exit path of the measured block. -/
structure Trial where
  kwargs : List (String × Value)
  tic : ℚ
  toc : ℚ
  exitPath : BlockExit
deriving DecidableEq

/-- The Timing Record a completed trial appends. -/
def recordOf (tr : Trial) : List (String × Value) :=
  setKey tr.kwargs "runtime" (Value.rat (tr.toc - tr.tic))

/-- Run a sequence of begin/end-measurement calls on a fresh timer. -/
def runTrials (trials : List Trial) : DiagnosticTimer :=
  trials.foldl
    (fun dt tr => dt.timeScope tr.kwargs tr.tic tr.toc tr.exitPath)
    DiagnosticTimer.empty

/-- The `diag_kwargs` dictionary built once per notebook run
(`dict(nbytes=..., chunksize=..., cloud_source=..., system=..., format=...)`),
embedded from the measurement cell shared by all benchmark notebooks. -/
def diag_kwargs (nbytes chunksize : Nat) (cloud_source system d_format : String) :
    List (String × Value) :=
  [ ("nbytes", Value.nat nbytes),
    ("chunksize", Value.nat chunksize),
    ("cloud_source", Value.str cloud_source),
    ("system", Value.str system),
    ("format", Value.str d_format) ]

/-- The keyword mapping each trial passes to `diag_timer.time`, embedded from
the call `diag_timer.time(nthreads=total_nthreads(client),
ncores=total_ncores(client), nworkers=total_workers(client), **diag_kwargs)`
shared by every benchmark notebook's measurement loop. -/
def trialKwargs (c : Client) (dk : List (String × Value)) :
    List (String × Value) :=
  ("nthreads", Value.nat (total_nthreads c)) ::
  ("ncores", Value.nat (total_ncores c)) ::
  ("nworkers", Value.nat (total_workers c)) :: dk

/-- The observations one iteration of a measurement loop makes: the client's
worker registry at the time of the `diag_timer.time` call, and the wall-clock
readings at scope entry and exit. -/
structure IterObs where
  client : Client
  tic : ℚ
  toc : ℚ
deriving DecidableEq

/-- The trials a notebook measurement loop performs: one per iteration, each
passing `trialKwargs` for the iteration's client snapshot, exiting normally. -/
def benchTrials (iters : List IterObs) (dk : List (String × Value)) :
    List Trial :=
  iters.map (fun it => ⟨trialKwargs it.client dk, it.tic, it.toc, BlockExit.normal⟩)

/-- A notebook measurement loop run on a fresh timer. -/
def runBenchmark (iters : List IterObs) (dk : List (String × Value)) :
    DiagnosticTimer :=
  runTrials (benchTrials iters dk)

/-- The column list every benchmark notebook's exported table ends up with:
the three cluster totals, the five `diag_kwargs` keys, and the duration. -/
def benchColumns : List String :=
  ["nthreads", "ncores", "nworkers", "nbytes", "chunksize",
   "cloud_source", "system", "format", "runtime"]

/-- One statement of a notebook measurement-loop body, embedded from the
notebook sources. -/
inductive NbStmt where
  | clientRestart
  | clusterScale (n : Nat)
  | timeSleep (secs : Nat)
  | waitForWorkers (n : Nat) (timeout : Option Nat)
  | daStore (lock : Bool) (computeNow : Bool)
  | daskCompute (retries : Option Nat)
deriving DecidableEq

/-- The body every benchmark measurement loop executes per worker count,
embedded from the notebook sources (`client.restart()`,
`cluster.scale(nworkers)`, `time.sleep(10)`,
`client.wait_for_workers(nworkers[, timeout])`, then inside the timed scope
`da.store(data, devnull, lock=False, compute=False)` and
`dask.compute(future, retries=5)`). -/
def loopBody (timeout : Option Nat) (nworkers : Nat) : List NbStmt :=
  [ NbStmt.clientRestart,
    NbStmt.clusterScale nworkers,
    NbStmt.timeSleep 10,
    NbStmt.waitForWorkers nworkers timeout,
    NbStmt.daStore false false,
    NbStmt.daskCompute (some 5) ]

/-- All statements a measurement loop executes over its worker list. -/
def loopStmts (timeout : Option Nat) (ns : List Nat) : List NbStmt :=
  ns.foldr (fun n acc => loopBody timeout n ++ acc) []

/-- The first measurement loop of `aws__zarr.ipynb`:
`n_worker_lst = [3,6,12,18,30,42,66,90]` iterated in reverse, with
`wait_for_workers(nworkers, timeout=60)`. -/
def awsZarrStmtsA : List NbStmt :=
  loopStmts (some 60) ([3, 6, 12, 18, 30, 42, 66, 90].reverse)

/-- The second measurement loop of `aws__zarr.ipynb`:
`n_worker_lst = [3,6,12,18,30,42,66,90]`, no wait timeout. -/
def awsZarrStmtsB : List NbStmt :=
  loopStmts none [3, 6, 12, 18, 30, 42, 66, 90]

/-- The first measurement loop of `ftpDuke__gdal_vrt.ipynb`: worker list
`[2,4,6]`, no wait timeout. -/
def ftpDukeStmtsA : List NbStmt :=
  loopStmts none [2, 4, 6]

/-- The second measurement loop of `ftpDuke__gdal_vrt.ipynb`: worker list
`[2,4,6]`, no wait timeout. -/
def ftpDukeStmtsB : List NbStmt :=
  loopStmts none [2, 4, 6]

/-- The third measurement loop of `ftpDuke__gdal_vrt.ipynb`: worker list
`[3,6,12,18,30,42,66,90]`, no wait timeout. -/
def ftpDukeStmtsC : List NbStmt :=
  loopStmts none [3, 6, 12, 18, 30, 42, 66, 90]

/-- The measurement loop of the template notebook shipped alongside the
repository README: worker list `[3,6,12,18,30]`, no wait timeout. -/
def templateStmts : List NbStmt :=
  loopStmts none [3, 6, 12, 18, 30]

/-- The retry configuration a statement passes to the external framework
(`retries=...` on `dask.compute`); `none` for every statement without one. -/
def retrySetting : NbStmt → Option Nat
  | NbStmt.daskCompute r => r
  | _ => none

/-- The throughput column added after export, embedded from the notebook line
`df['throughput_MBps'] = df.nbytes/1e6/df.runtime` applied elementwise to
each row's byte count and elapsed time. -/
def throughput_MBps (nbytes runtime : ℚ) : ℚ :=
  nbytes / 1000000 / runtime

/-- Two concrete trials with disjoint metadata keys, in recording order. -/
def w3trials : List Trial :=
  [⟨[("a", Value.nat 1)], 0, 1, BlockExit.normal⟩,
   ⟨[("b", Value.nat 2)], 0, 2, BlockExit.normal⟩]

/-- The same two trials recorded in the opposite order. -/
def w3trialsSwapped : List Trial :=
  [⟨[("b", Value.nat 2)], 0, 2, BlockExit.normal⟩,
   ⟨[("a", Value.nat 1)], 0, 1, BlockExit.normal⟩]

/-- One concrete measurement-loop iteration: a client with one registered
worker of 2 cores and 1 thread, measured from clock 0 to clock 1. -/
def w10iters : List IterObs :=
  [⟨⟨[⟨2, 1⟩]⟩, 0, 1⟩]

theorem timeScope_diagnostics_eq (dt : DiagnosticTimer)
    (kwargs : List (String × Value)) (tic toc : ℚ) (e : BlockExit) :
    (dt.timeScope kwargs tic toc e).diagnostics =
      dt.diagnostics ++ [setKey kwargs "runtime" (Value.rat (toc - tic))] := by
  cases e <;> rfl

theorem foldl_timeScope_diagnostics (trials : List Trial) (dt : DiagnosticTimer) :
    (trials.foldl
        (fun d tr => d.timeScope tr.kwargs tr.tic tr.toc tr.exitPath)
        dt).diagnostics
      = dt.diagnostics ++ trials.map recordOf := by
  induction trials generalizing dt with
  | nil => simp
  | cons tr ts ih =>
      simp only [List.foldl_cons, List.map_cons]
      rw [ih, timeScope_diagnostics_eq]
      simp [recordOf]

theorem runTrials_diagnostics (trials : List Trial) :
    (runTrials trials).diagnostics = trials.map recordOf := by
  simpa [DiagnosticTimer.empty] using
    foldl_timeScope_diagnostics trials DiagnosticTimer.empty

theorem mem_dedupFirst_foldl (l : List String) (a : String) :
    ∀ acc : List String,
      (a ∈ l.foldl (fun acc k => if k ∈ acc then acc else acc ++ [k]) acc ↔
        a ∈ acc ∨ a ∈ l) := by
  induction l with
  | nil => intro acc; simp
  | cons k ks ih =>
      intro acc
      simp only [List.foldl_cons]
      rw [ih]
      have hstep : a ∈ (if k ∈ acc then acc else acc ++ [k]) ↔ a ∈ acc ∨ a = k := by
        by_cases hk : k ∈ acc
        · rw [if_pos hk]
          constructor
          · exact Or.inl
          · rintro (h | rfl)
            · exact h
            · exact hk
        · rw [if_neg hk]
          simp
      rw [hstep]
      simp [List.mem_cons]
      tauto

theorem mem_dedupFirst (l : List String) (a : String) :
    a ∈ dedupFirst l ↔ a ∈ l := by
  have h := mem_dedupFirst_foldl l a []
  simpa [dedupFirst] using h

theorem nodup_dedupFirst_foldl (l : List String) :
    ∀ acc : List String, acc.Nodup →
      (l.foldl (fun acc k => if k ∈ acc then acc else acc ++ [k]) acc).Nodup := by
  induction l with
  | nil => intro acc h; simpa using h
  | cons k ks ih =>
      intro acc h
      simp only [List.foldl_cons]
      apply ih
      by_cases hk : k ∈ acc
      · simpa [hk] using h
      · simp only [hk, if_false]
        rw [List.nodup_append]
        exact ⟨h, List.nodup_singleton k,
          fun x hx hxk => hk ((List.mem_singleton.mp hxk) ▸ hx)⟩

theorem nodup_columns (dt : DiagnosticTimer) : dt.columns.Nodup :=
  nodup_dedupFirst_foldl _ [] List.nodup_nil

theorem mem_flatKeys (rs : List (List (String × Value))) (a : String) :
    a ∈ flatKeys rs ↔ ∃ r ∈ rs, a ∈ keysOf r := by
  induction rs with
  | nil => simp [flatKeys]
  | cons r rs ih =>
      have hr : flatKeys (r :: rs) = keysOf r ++ flatKeys rs := rfl
      rw [hr, List.mem_append, ih]
      constructor
      · rintro (h | ⟨r', hr', ha⟩)
        · exact ⟨r, List.mem_cons_self r rs, h⟩
        · exact ⟨r', List.mem_cons_of_mem r hr', ha⟩
      · rintro ⟨r', hr', ha⟩
        rcases List.mem_cons.mp hr' with rfl | hmem
        · exact Or.inl ha
        · exact Or.inr ⟨r', hmem, ha⟩

theorem mem_columns_iff (dt : DiagnosticTimer) (a : String) :
    a ∈ dt.columns ↔ ∃ r ∈ dt.diagnostics, a ∈ keysOf r := by
  rw [DiagnosticTimer.columns, mem_dedupFirst, mem_flatKeys]

theorem rowLookup_rowOf (cols : List String) (r : List (String × Value))
    (k : String) (hk : k ∈ cols) :
    rowLookup k (rowOf cols r) = some (lookupVal k r) := by
  induction cols with
  | nil => cases hk
  | cons c cs ih =>
      rw [rowOf, List.map_cons]
      by_cases hc : c = k
      · subst hc
        simp [rowLookup]
      · have htail : k ∈ cs := by
          rcases List.mem_cons.mp hk with h | h
          · exact absurd h.symm hc
          · exact h
        simpa [rowLookup, hc, rowOf] using ih htail

theorem lookupVal_isSome_of_mem (m : List (String × Value)) (k : String)
    (hk : k ∈ keysOf m) : ∃ v, lookupVal k m = some v := by
  induction m with
  | nil => simp [keysOf] at hk
  | cons p m ih =>
      by_cases hp : p.1 = k
      · exact ⟨p.2, by simp [lookupVal, hp]⟩
      · have hmem : k ∈ keysOf m := by
          simp only [keysOf, List.map_cons, List.mem_cons] at hk
          rcases hk with h | h
          · exact absurd h.symm hp
          · exact h
        rcases ih hmem with ⟨v, hv⟩
        exact ⟨v, by simpa [lookupVal, hp] using hv⟩

theorem lookupVal_eq_none (m : List (String × Value)) (k : String)
    (hk : k ∉ keysOf m) : lookupVal k m = none := by
  induction m with
  | nil => rfl
  | cons p m ih =>
      have hk2 : ¬(k = p.1 ∨ k ∈ keysOf m) := by
        simpa [keysOf] using hk
      have hp : p.1 ≠ k := fun h => hk2 (Or.inl h.symm)
      have hmem : k ∉ keysOf m := fun h => hk2 (Or.inr h)
      simpa [lookupVal, hp] using ih hmem

theorem keysOf_overwrite (m : List (String × Value)) (k : String) (v : Value) :
    keysOf (m.map (fun p => if p.1 = k then (k, v) else p)) = keysOf m := by
  simp only [keysOf, List.map_map]
  apply List.map_congr_left
  intro p _
  by_cases hp : p.1 = k
  · simp [Function.comp, hp]
  · simp [Function.comp, hp]

theorem mem_keysOf_setKey (m : List (String × Value)) (k a : String) (v : Value) :
    a ∈ keysOf (setKey m k v) ↔ a ∈ keysOf m ∨ a = k := by
  rw [setKey]
  by_cases hk : k ∈ keysOf m
  · rw [if_pos hk, keysOf_overwrite]
    constructor
    · exact Or.inl
    · rintro (h | rfl)
      · exact h
      · exact hk
  · rw [if_neg hk]
    simp [keysOf]

theorem lookupVal_overwrite (m : List (String × Value)) (k : String) (v : Value)
    (hk : k ∈ keysOf m) :
    lookupVal k (m.map (fun p => if p.1 = k then (k, v) else p)) = some v := by
  induction m with
  | nil => simp [keysOf] at hk
  | cons p m ih =>
      rw [List.map_cons]
      by_cases hp : p.1 = k
      · simp [if_pos hp, lookupVal]
      · have hmem : k ∈ keysOf m := by
          simp only [keysOf, List.map_cons, List.mem_cons] at hk
          rcases hk with h | h
          · exact absurd h.symm hp
          · exact h
        simpa [if_neg hp, lookupVal, hp] using ih hmem

theorem lookupVal_append_single (m : List (String × Value)) (k : String)
    (v : Value) (hk : k ∉ keysOf m) :
    lookupVal k (m ++ [(k, v)]) = some v := by
  induction m with
  | nil => simp [lookupVal]
  | cons p m ih =>
      have hk2 : ¬(k = p.1 ∨ k ∈ keysOf m) := by
        simpa [keysOf] using hk
      have hp : p.1 ≠ k := fun h => hk2 (Or.inl h.symm)
      have hmem : k ∉ keysOf m := fun h => hk2 (Or.inr h)
      simpa [lookupVal, hp] using ih hmem

theorem lookupVal_setKey_self (m : List (String × Value)) (k : String)
    (v : Value) : lookupVal k (setKey m k v) = some v := by
  rw [setKey]
  by_cases hk : k ∈ keysOf m
  · rw [if_pos hk]
    exact lookupVal_overwrite m k v hk
  · rw [if_neg hk]
    exact lookupVal_append_single m k v hk

/-- All metadata keys supplied across a sequence of trials, concatenated in
trial order. -/
def suppliedKeys (trials : List Trial) : List String :=
  flatKeys (trials.map Trial.kwargs)

theorem mem_suppliedKeys (trials : List Trial) (a : String) :
    a ∈ suppliedKeys trials ↔ ∃ tr ∈ trials, a ∈ keysOf tr.kwargs := by
  rw [suppliedKeys, mem_flatKeys]
  constructor
  · rintro ⟨r, hr, ha⟩
    rcases List.mem_map.mp hr with ⟨tr, htr, rfl⟩
    exact ⟨tr, htr, ha⟩
  · rintro ⟨tr, htr, ha⟩
    exact ⟨tr.kwargs, List.mem_map_of_mem Trial.kwargs htr, ha⟩

theorem mem_columns_runTrials (trials : List Trial) (a : String) :
    a ∈ (runTrials trials).columns ↔
      (∃ tr ∈ trials, a ∈ keysOf tr.kwargs) ∨ (a = "runtime" ∧ trials ≠ []) := by
  rw [mem_columns_iff, runTrials_diagnostics]
  constructor
  · rintro ⟨r, hr, ha⟩
    rcases List.mem_map.mp hr with ⟨tr, htr, rfl⟩
    rcases (mem_keysOf_setKey tr.kwargs "runtime" a _).mp ha with h | rfl
    · exact Or.inl ⟨tr, htr, h⟩
    · exact Or.inr ⟨rfl, List.ne_nil_of_mem htr⟩
  · rintro (⟨tr, htr, ha⟩ | ⟨rfl, hne⟩)
    · exact ⟨recordOf tr, List.mem_map_of_mem recordOf htr,
        (mem_keysOf_setKey tr.kwargs "runtime" a _).mpr (Or.inl ha)⟩
    · rcases List.exists_mem_of_ne_nil trials hne with ⟨tr, htr⟩
      exact ⟨recordOf tr, List.mem_map_of_mem recordOf htr,
        (mem_keysOf_setKey tr.kwargs "runtime" _ _).mpr (Or.inr rfl)⟩

/-- C6: for every lazy chunked array with chunk shape `(s1, ..., sk)` and
element width `w` bytes, `get_chunksize` returns `s1 * ... * sk * w`; in
particular for chunks of shape `(100, 100)` with 4-byte elements it returns
exactly `40000`. -/
theorem C6_get_chunksize_product (shape : List Nat) (w : Nat) :
    get_chunksize ⟨shape, w⟩ = shape.prod * w ∧
    get_chunksize ⟨[100, 100], 4⟩ = 40000 := by
  constructor
  · have h : npProd shape = shape.prod := by
      simp [npProd, List.prod_eq_foldl]
    simp [get_chunksize, h]
  · decide

/-- C5: every Null Sink write, for any position type, value type, position,
and value, succeeds without an error and leaves the store unchanged. -/
theorem C5_devnull_write_total_noop {α β : Type _} (s : DevNullStore)
    (key : α) (val : β) :
    s.setitem key val = Except.ok s :=
  rfl

/-- C2: for every timer state, metadata mapping, and pair of clock readings,
the end-measurement step runs on every exit path — normal completion or a
raised error alike — and appends exactly one Timing Record combining the
supplied metadata with the elapsed time measured up to that exit. -/
theorem C2_record_appended_on_every_exit_path (dt : DiagnosticTimer)
    (kwargs : List (String × Value)) (tic toc : ℚ) (e : BlockExit) :
    (dt.timeScope kwargs tic toc e).diagnostics =
      dt.diagnostics ++ [setKey kwargs "runtime" (Value.rat (toc - tic))] := by
  cases e <;> rfl

/-- C8: exporting twice with no intervening begin/end-measurement pair
returns an identical table both times; export neither modifies nor consumes
the accumulated Trial Table. -/
theorem C8_export_is_idempotent_and_pure (dt : DiagnosticTimer) :
    (dt.dataframeOp.2).dataframeOp.1 = dt.dataframeOp.1 ∧
      dt.dataframeOp.2 = dt :=
  ⟨rfl, rfl⟩

/-- C1: for every sequence of n completed begin/end-measurement calls with
metadata mappings M1..Mn (the wall clock not running backwards across any
measurement), the exported table has exactly n rows, and row i has a cell
holding a value for every key of Mi plus a duration (`runtime`) cell holding
a value that is ≥ 0. -/
theorem C1_export_has_row_per_trial_with_nonneg_duration (trials : List Trial)
    (hmono : ∀ tr ∈ trials, tr.tic ≤ tr.toc) :
    (runTrials trials).dataframe.length = trials.length ∧
    ∀ (i : Nat) (tr : Trial), trials[i]? = some tr →
      ∃ row, (runTrials trials).dataframe[i]? = some row ∧
        (∀ k ∈ keysOf tr.kwargs, ∃ v, rowLookup k row = some (some v)) ∧
        ∃ q, rowLookup "runtime" row = some (some (Value.rat q)) ∧ 0 ≤ q := by
  have hdiag := runTrials_diagnostics trials
  constructor
  · simp [DiagnosticTimer.dataframe, hdiag]
  · intro i tr htr
    have htrmem : tr ∈ trials := List.getElem?_mem htr
    have hrecmem : recordOf tr ∈ (runTrials trials).diagnostics := by
      rw [hdiag]
      exact List.mem_map_of_mem recordOf htrmem
    have hrec : (runTrials trials).diagnostics[i]? = some (recordOf tr) := by
      rw [hdiag, List.getElem?_map, htr]
      rfl
    have hrowi : (runTrials trials).dataframe[i]? =
        some (rowOf (runTrials trials).columns (recordOf tr)) := by
      rw [DiagnosticTimer.dataframe, List.getElem?_map, hrec]
      rfl
    refine ⟨_, hrowi, ?_, ?_⟩
    · intro k hkmem
      have hkrec : k ∈ keysOf (recordOf tr) :=
        (mem_keysOf_setKey tr.kwargs "runtime" k _).mpr (Or.inl hkmem)
      have hkcol : k ∈ (runTrials trials).columns := by
        rw [mem_columns_iff]
        exact ⟨recordOf tr, hrecmem, hkrec⟩
      rcases lookupVal_isSome_of_mem _ k hkrec with ⟨v, hv⟩
      exact ⟨v, by rw [rowLookup_rowOf _ _ _ hkcol, hv]⟩
    · have hkrec : "runtime" ∈ keysOf (recordOf tr) :=
        (mem_keysOf_setKey tr.kwargs "runtime" _ _).mpr (Or.inr rfl)
      have hkcol : "runtime" ∈ (runTrials trials).columns := by
        rw [mem_columns_iff]
        exact ⟨recordOf tr, hrecmem, hkrec⟩
      refine ⟨tr.toc - tr.tic, ?_, ?_⟩
      · rw [rowLookup_rowOf _ _ _ hkcol, recordOf, lookupVal_setKey_self]
      · have h := hmono tr htrmem
        linarith

/-- Witness for C1: one concrete completed trial with metadata
`nworkers = 3` measured from clock 0 to clock 1 exports a one-row table. -/
theorem C1_export_has_row_per_trial_with_nonneg_duration_witness :
    (∀ tr ∈ ([⟨[("nworkers", Value.nat 3)], 0, 1, BlockExit.normal⟩] : List Trial),
        tr.tic ≤ tr.toc) ∧
    (runTrials
        [⟨[("nworkers", Value.nat 3)], 0, 1, BlockExit.normal⟩]).dataframe.length
      = 1 := by
  have hm : ∀ tr ∈ ([⟨[("nworkers", Value.nat 3)], 0, 1, BlockExit.normal⟩] : List Trial),
      tr.tic ≤ tr.toc := by decide
  exact ⟨hm, (C1_export_has_row_per_trial_with_nonneg_duration _ hm).1⟩

/-- C3: the exported column set equals the union of the metadata keys across
all recorded mappings plus the duration column, independent of recording
order; a row whose mapping lacks a key that another mapping supplied
resolves that column to the missing value. -/
theorem C3_column_set_is_order_independent_union (trials trials' : List Trial)
    (hne : trials ≠ []) (hperm : trials.Perm trials') :
    ((runTrials trials).columns).toFinset =
      (suppliedKeys trials).toFinset ∪ {"runtime"} ∧
    ((runTrials trials).columns).toFinset =
      ((runTrials trials').columns).toFinset ∧
    (∀ (i : Nat) (tr : Trial), trials[i]? = some tr →
      ∀ k ∈ (runTrials trials).columns, k ∉ keysOf tr.kwargs → k ≠ "runtime" →
        ∃ row, (runTrials trials).dataframe[i]? = some row ∧
          rowLookup k row = some none) := by
  refine ⟨?_, ?_, ?_⟩
  · ext a
    simp only [List.mem_toFinset, Finset.mem_union, Finset.mem_singleton]
    rw [mem_columns_runTrials, mem_suppliedKeys]
    constructor
    · rintro (h | ⟨rfl, _⟩)
      · exact Or.inl h
      · exact Or.inr rfl
    · rintro (h | rfl)
      · exact Or.inl h
      · exact Or.inr ⟨rfl, hne⟩
  · have hne' : trials' ≠ [] := by
      intro h
      exact hne (List.Perm.eq_nil (h ▸ hperm))
    ext a
    simp only [List.mem_toFinset]
    rw [mem_columns_runTrials, mem_columns_runTrials]
    constructor
    · rintro (⟨tr, htr, ha⟩ | ⟨rfl, _⟩)
      · exact Or.inl ⟨tr, hperm.mem_iff.mp htr, ha⟩
      · exact Or.inr ⟨rfl, hne'⟩
    · rintro (⟨tr, htr, ha⟩ | ⟨rfl, _⟩)
      · exact Or.inl ⟨tr, hperm.mem_iff.mpr htr, ha⟩
      · exact Or.inr ⟨rfl, hne⟩
  · intro i tr htr k hkcol hknot hkrt
    have hdiag := runTrials_diagnostics trials
    have hrec : (runTrials trials).diagnostics[i]? = some (recordOf tr) := by
      rw [hdiag, List.getElem?_map, htr]
      rfl
    refine ⟨rowOf (runTrials trials).columns (recordOf tr), ?_, ?_⟩
    · rw [DiagnosticTimer.dataframe, List.getElem?_map, hrec]
      rfl
    · rw [rowLookup_rowOf _ _ _ hkcol]
      have hnotrec : k ∉ keysOf (recordOf tr) := by
        intro h
        rcases (mem_keysOf_setKey tr.kwargs "runtime" k _).mp h with h2 | h2
        · exact hknot h2
        · exact hkrt h2
      rw [lookupVal_eq_none _ _ hnotrec]

/-- Witness for C3 at the two concrete trials and their transposition. -/
theorem C3_column_set_is_order_independent_union_witness :
    w3trials ≠ [] ∧ w3trials.Perm w3trialsSwapped ∧
    ((runTrials w3trials).columns).toFinset =
      (suppliedKeys w3trials).toFinset ∪ {"runtime"} := by
  have h1 : w3trials ≠ [] := by simp [w3trials]
  have h2 : w3trials.Perm w3trialsSwapped := List.Perm.swap _ _ _
  exact ⟨h1, h2,
    (C3_column_set_is_order_independent_union w3trials w3trialsSwapped h1 h2).1⟩

/-- C7: with zero registered workers each cluster total is 0; with k
registered workers of c cores and t threads each, the totals are k, k*c and
k*t respectively. -/
theorem C7_cluster_totals :
    (total_workers ⟨[]⟩ = 0 ∧ total_ncores ⟨[]⟩ = 0 ∧
      total_nthreads ⟨[]⟩ = 0) ∧
    ∀ (k c t : Nat) (ws : List WorkerInfo),
      ws.length = k → (∀ w ∈ ws, w.ncores = c ∧ w.nthreads = t) →
      total_workers ⟨ws⟩ = k ∧ total_ncores ⟨ws⟩ = k * c ∧
        total_nthreads ⟨ws⟩ = k * t := by
  refine ⟨⟨rfl, rfl, rfl⟩, ?_⟩
  intro k c t ws
  induction ws generalizing k with
  | nil =>
      intro hlen _
      simp only [List.length_nil] at hlen
      subst hlen
      exact ⟨rfl, by simp [total_ncores], by simp [total_nthreads]⟩
  | cons w ws ih =>
      intro hlen hall
      have hw := hall w (List.mem_cons_self w ws)
      have hws : ∀ x ∈ ws, x.ncores = c ∧ x.nthreads = t :=
        fun x hx => hall x (List.mem_cons_of_mem w hx)
      cases k with
      | zero => simp at hlen
      | succ k =>
          have hlen' : ws.length = k := by simpa using hlen
          rcases ih k hlen' hws with ⟨h1, h2, h3⟩
          refine ⟨?_, ?_, ?_⟩
          · simp only [total_workers, List.length_cons] at h1 ⊢
            omega
          · simp only [total_ncores, List.map_cons, List.sum_cons] at h2 ⊢
            rw [hw.1, h2]
            ring
          · simp only [total_nthreads, List.map_cons, List.sum_cons] at h3 ⊢
            rw [hw.2, h3]
            ring

/-- Witness for C7: two registered workers with 3 cores and 2 threads each
give totals 2, 6 and 4. -/
theorem C7_cluster_totals_witness :
    ([⟨3, 2⟩, ⟨3, 2⟩] : List WorkerInfo).length = 2 ∧
    (∀ w ∈ ([⟨3, 2⟩, ⟨3, 2⟩] : List WorkerInfo),
        w.ncores = 3 ∧ w.nthreads = 2) ∧
    (total_workers ⟨[⟨3, 2⟩, ⟨3, 2⟩]⟩ = 2 ∧
      total_ncores ⟨[⟨3, 2⟩, ⟨3, 2⟩]⟩ = 2 * 3 ∧
      total_nthreads ⟨[⟨3, 2⟩, ⟨3, 2⟩]⟩ = 2 * 2) := by
  have h1 : ([⟨3, 2⟩, ⟨3, 2⟩] : List WorkerInfo).length = 2 := rfl
  have h2 : ∀ w ∈ ([⟨3, 2⟩, ⟨3, 2⟩] : List WorkerInfo),
      w.ncores = 3 ∧ w.nthreads = 2 := by decide
  exact ⟨h1, h2, C7_cluster_totals.2 2 3 2 _ h1 h2⟩

/-- C4 counterexample: at a row with byte count 2000000 and elapsed time 1,
the throughput column holds 2 (megabytes per second), not the plain quotient
bytes ÷ elapsed time = 2000000. -/
theorem C4_throughput_not_plain_quotient :
    throughput_MBps 2000000 1 ≠ 2000000 / 1 := by
  norm_num [throughput_MBps]

/-- C4 (amended): for every row, the throughput column equals the row's byte
count divided by its elapsed time, further divided by 10^6 — megabytes per
second, as the column name `throughput_MBps` states. -/
theorem C4_throughput_is_megabytes_per_second (nbytes runtime : ℚ) :
    throughput_MBps nbytes runtime = nbytes / runtime / 1000000 := by
  rw [throughput_MBps, div_right_comm]

/-- C9: across every measurement loop embedded from the benchmark notebooks,
the statements carrying a retry configuration are exactly the per-trial
`dask.compute` calls, each with the fixed count 5; no other statement of any
loop carries retry, recovery, or error-translation behaviour. -/
theorem C9_only_retry_is_compute_retries_five :
    awsZarrStmtsA.filterMap retrySetting = List.replicate 8 5 ∧
    awsZarrStmtsB.filterMap retrySetting = List.replicate 8 5 ∧
    ftpDukeStmtsA.filterMap retrySetting = List.replicate 3 5 ∧
    ftpDukeStmtsB.filterMap retrySetting = List.replicate 3 5 ∧
    ftpDukeStmtsC.filterMap retrySetting = List.replicate 8 5 ∧
    templateStmts.filterMap retrySetting = List.replicate 5 5 := by
  decide

theorem keysOf_trialKwargs (c : Client) (nbytes chunksize : Nat)
    (cloud_source system d_format : String) :
    keysOf (trialKwargs c (diag_kwargs nbytes chunksize cloud_source system d_format)) =
      ["nthreads", "ncores", "nworkers", "nbytes", "chunksize",
       "cloud_source", "system", "format"] :=
  rfl

theorem keysOf_benchRecord (c : Client) (nbytes chunksize : Nat)
    (cloud_source system d_format : String) (v : Value) :
    keysOf (setKey (trialKwargs c (diag_kwargs nbytes chunksize cloud_source system d_format))
        "runtime" v) = benchColumns := by
  rw [setKey, keysOf_trialKwargs, if_neg (by decide)]
  rfl

theorem runBenchmark_diagnostics (iters : List IterObs)
    (dk : List (String × Value)) :
    (runBenchmark iters dk).diagnostics =
      iters.map (fun it =>
        setKey (trialKwargs it.client dk) "runtime"
          (Value.rat (it.toc - it.tic))) := by
  rw [runBenchmark, runTrials_diagnostics, benchTrials, List.map_map]
  rfl

/-- C10: in the measurement loop shared by every benchmark notebook, each
trial's begin-measurement call supplies the same metadata key set (nthreads,
ncores, nworkers, nbytes, chunksize, cloud_source, system, format), so every
record carries the same key list and every cell of the exported table holds
a value: the table is rectangular and the missing-key fill convention is
never exercised. -/
theorem C10_benchmark_table_rectangular (iters : List IterObs)
    (nbytes chunksize : Nat) (cloud_source system d_format : String) :
    (∀ r ∈ (runBenchmark iters
          (diag_kwargs nbytes chunksize cloud_source system d_format)).diagnostics,
        keysOf r = benchColumns) ∧
    (∀ row ∈ (runBenchmark iters
          (diag_kwargs nbytes chunksize cloud_source system d_format)).dataframe,
        ∀ cell ∈ row, cell.2.isSome) := by
  have hkeys : ∀ r ∈ (runBenchmark iters
      (diag_kwargs nbytes chunksize cloud_source system d_format)).diagnostics,
      keysOf r = benchColumns := by
    intro r hr
    rw [runBenchmark_diagnostics] at hr
    rcases List.mem_map.mp hr with ⟨it, _, rfl⟩
    exact keysOf_benchRecord it.client nbytes chunksize cloud_source system d_format _
  refine ⟨hkeys, ?_⟩
  intro row hrow cell hcell
  rw [DiagnosticTimer.dataframe] at hrow
  rcases List.mem_map.mp hrow with ⟨r, hrmem, rfl⟩
  rw [rowOf] at hcell
  rcases List.mem_map.mp hcell with ⟨col, hcolmem, rfl⟩
  have hcolr : col ∈ keysOf r := by
    rcases (mem_columns_iff _ col).mp hcolmem with ⟨r2, hr2, hcol2⟩
    rw [hkeys r2 hr2] at hcol2
    rw [hkeys r hrmem]
    exact hcol2
  rcases lookupVal_isSome_of_mem r col hcolr with ⟨v, hv⟩
  simp [hv]

/-- Witness for C10: the one record of a concrete one-iteration benchmark
run carries exactly the shared benchmark key list. -/
theorem C10_benchmark_table_rectangular_witness :
    keysOf (setKey (trialKwargs ⟨[⟨2, 1⟩]⟩
        (diag_kwargs 100 40 "aws" "Ceres" "zarr"))
        "runtime" (Value.rat (1 - 0))) = benchColumns := by
  refine (C10_benchmark_table_rectangular w10iters 100 40 "aws" "Ceres" "zarr").1 _ ?_
  rw [runBenchmark_diagnostics]
  simp [w10iters]

end GeoCDL
